import Mathlib

/-
Verification of the LargeCoordinates header (LargeCoordinates.h).

The program stores a position in a huge world as a pair of an integer cell
index (int3 global) and a single-precision offset from the cell center
(float3 local), with CELL_SIZE = 2048.  All floating-point data is modelled
by exact rationals together with explicit round-to-nearest-even operators:
fl32 rounds to a 24-bit significand (IEEE binary32) and fl64 to a 53-bit
significand (IEEE binary64), both with unbounded exponent (no overflow or
subnormals; every value handled by the program is far from both regimes, so
on the program inputs this agrees with IEEE-754 semantics).  Each C++
floating-point operation is modelled as the exact rational operation
followed by the matching rounding operator.  Debug assertions are modelled
as Option guards: a function returns none exactly when one of its asserts
would fire.  int32 overflow inside the int64 widening of operator== is
modelled by an explicit two's-complement wrap.
-/

/-- Round a rational to the nearest integer, ties to even (IEEE default). -/
def rne (q : ℚ) : ℤ :=
  if q - ⌊q⌋ < 1/2 then ⌊q⌋
  else if 1/2 < q - ⌊q⌋ then ⌊q⌋ + 1
  else if ⌊q⌋ % 2 = 0 then ⌊q⌋ else ⌊q⌋ + 1

/-- Round to nearest with a p-bit significand and unbounded exponent. -/
def rnd (p : ℕ) (q : ℚ) : ℚ :=
  if q = 0 then 0
  else ((rne (q / 2 ^ (Int.log 2 |q| - (p - 1 : ℤ)))) : ℚ) * 2 ^ (Int.log 2 |q| - (p - 1 : ℤ))

/-- Round half away from zero, the semantics of C std::round. -/
def roundAway (q : ℚ) : ℤ := if 0 ≤ q then ⌊q + 1/2⌋ else -⌊-q + 1/2⌋

/-- IEEE binary32 rounding (float). -/
def fl32 (q : ℚ) : ℚ := rnd 24 q

/-- IEEE binary64 rounding (double). -/
def fl64 (q : ℚ) : ℚ := rnd 53 q

structure Int3 where
  x : ℤ
  y : ℤ
  z : ℤ
deriving DecidableEq, Repr

structure Float3 where
  x : ℚ
  y : ℚ
  z : ℚ
deriving DecidableEq, Repr

structure Double3 where
  x : ℚ
  y : ℚ
  z : ℚ
deriving DecidableEq, Repr

/-- LargePosition: a cell index (field global) and a single-precision local
offset from the cell center (field local in the C++ source; local is a Lean
keyword, so the field is called loc here). -/
structure LargePosition where
  global : Int3
  loc : Float3
deriving DecidableEq, Repr

def CELL_SIZE : ℚ := 2048

/-- MIN_COORDINATE = (double)INT_MIN * CELL_SIZE (the product is exact). -/
def MIN_COORDINATE : ℚ := -(2^31) * CELL_SIZE

/-- MAX_COORDINATE = (double)INT_MAX * CELL_SIZE (the product is exact). -/
def MAX_COORDINATE : ℚ := (2^31 - 1) * CELL_SIZE

/-- MIN_PRECISION = 0.000488f: the float nearest to the decimal literal. -/
def MIN_PRECISION : ℚ := fl32 (488/1000000)

/-- THRESHOLD = CELL_SIZE * 0.75f, computed exactly. -/
def THRESHOLD : ℚ := 1536

/-- The equality tolerance 1e-6f: the float nearest to the decimal literal. -/
def tol : ℚ := fl32 (1/1000000)

/-- The range checked by the asserts of from_double3. -/
abbrev inRange (v : ℚ) : Prop := MIN_COORDINATE ≤ v ∧ v ≤ MAX_COORDINATE

/-- Cell assignment of from_double3 on one axis:
(int32_t)(std::round(val / CELL_SIZE)); the double division is rounded. -/
def cellOf (v : ℚ) : ℤ := roundAway (fl64 (v / CELL_SIZE))

/-- Local offset of from_double3 on one axis:
(float)(val - global * double(CELL_SIZE)), every double operation rounded. -/
def localOf (v : ℚ) : ℚ := fl32 (fl64 (v - fl64 ((cellOf v : ℚ) * CELL_SIZE)))

/-- from_double3: the range asserts, then nearest-cell assignment. -/
def from_double3 (v : Double3) : Option LargePosition :=
  if inRange v.x ∧ inRange v.y ∧ inRange v.z then
    some ⟨⟨cellOf v.x, cellOf v.y, cellOf v.z⟩, ⟨localOf v.x, localOf v.y, localOf v.z⟩⟩
  else none

/-- One axis of to_double3: global * double(CELL_SIZE) + local, with both
double operations rounded (the float local converts to double exactly). -/
def reconOf (g : ℤ) (l : ℚ) : ℚ := fl64 (fl64 ((g : ℚ) * CELL_SIZE) + l)

/-- to_double3: world coordinates of a position, in double precision. -/
def to_double3 (p : LargePosition) : Double3 :=
  ⟨reconOf p.global.x p.loc.x, reconOf p.global.y p.loc.y, reconOf p.global.z p.loc.z⟩

/-- The range of the int32_t components of int3. -/
abbrev isInt32 (n : ℤ) : Prop := -(2^31) ≤ n ∧ n < 2^31

/-- One axis of to_float3: local + float(d * CELL_SIZE), where the int d is
first converted to float, then multiplied and added in float. -/
def relOf (l : ℚ) (d : ℤ) : ℚ := fl32 (l + fl32 (fl32 (d : ℚ) * CELL_SIZE))

/-- to_float3: offset of this position from the center of the origin cell.
Returns none when the int3 subtraction overflows int32 (undefined behavior)
or when the |result| <= 3*CELL_SIZE assert fires. -/
def to_float3 (p : LargePosition) (origin : Int3) : Option Float3 :=
  let dx := p.global.x - origin.x
  let dy := p.global.y - origin.y
  let dz := p.global.z - origin.z
  if isInt32 dx ∧ isInt32 dy ∧ isInt32 dz then
    let rx := relOf p.loc.x dx
    let ry := relOf p.loc.y dy
    let rz := relOf p.loc.z dz
    if |rx| ≤ CELL_SIZE * 3 ∧ |ry| ≤ CELL_SIZE * 3 ∧ |rz| ≤ CELL_SIZE * 3 then
      some ⟨rx, ry, rz⟩
    else none
  else none

/-- from_float3: the |offset| <= 3*CELL_SIZE asserts, then hysteresis: keep
the origin cell when every component is within THRESHOLD, otherwise rebuild
through double world coordinates and from_double3. -/
def from_float3 (origin : Int3) (l : Float3) : Option LargePosition :=
  if |l.x| ≤ CELL_SIZE * 3 ∧ |l.y| ≤ CELL_SIZE * 3 ∧ |l.z| ≤ CELL_SIZE * 3 then
    if |l.x| ≤ THRESHOLD ∧ |l.y| ≤ THRESHOLD ∧ |l.z| ≤ THRESHOLD then
      some ⟨origin, l⟩
    else
      from_double3 ⟨reconOf origin.x l.x, reconOf origin.y l.y, reconOf origin.z l.z⟩
  else none

/-- The LargePosition(const int3, const float3) constructor: it simply
calls from_float3 on its two arguments. -/
def mkFromCellOffset (g : Int3) (l : Float3) : Option LargePosition := from_float3 g l

/-- Two's-complement wrap-around at width w, modelling fixed-width signed
integer arithmetic. -/
def wrap (w : ℕ) (n : ℤ) : ℤ := (n + 2 ^ (w - 1)) % 2 ^ w - 2 ^ (w - 1)

/-- One comparison of operator==: std::abs(u - v) < tolerance, with the
subtraction performed in float. -/
def closeB (u v : ℚ) : Bool := decide (|fl32 (u - v)| < tol)

/-- operator==: widen the cell difference to int64, early-exit when any axis
differs by more than 3 cells, otherwise reproject the right operand into the
left operand frame with to_float3 and compare with tolerance 1e-6f. -/
def lpEq (a b : LargePosition) : Option Bool :=
  let dx := wrap 64 (a.global.x - b.global.x)
  let dy := wrap 64 (a.global.y - b.global.y)
  let dz := wrap 64 (a.global.z - b.global.z)
  if 3 < |dx| ∨ 3 < |dy| ∨ 3 < |dz| then some false
  else
    match to_float3 b a.global with
    | none => none
    | some o => some (closeB a.loc.x o.x && closeB a.loc.y o.y && closeB a.loc.z o.z)

-- ===== Basic facts about the rounding operators =====

theorem rne_close (q : ℚ) : |(rne q : ℚ) - q| ≤ 1/2 := by
  have h1 : (⌊q⌋ : ℚ) ≤ q := Int.floor_le q
  have h2 : q < ⌊q⌋ + 1 := Int.lt_floor_add_one q
  unfold rne
  split_ifs with hlt hgt heven
  · rw [abs_le]; constructor <;> linarith
  · rw [abs_le]; constructor <;> · push_cast; linarith
  · rw [abs_le]; constructor <;> linarith
  · rw [abs_le]; constructor <;> · push_cast; linarith

theorem rne_int (n : ℤ) : rne (n : ℚ) = n := by
  unfold rne
  rw [Int.floor_intCast]
  norm_num

theorem rnd_zero (p : ℕ) : rnd p 0 = 0 := by simp [rnd]

theorem fl32_zero : fl32 0 = 0 := rnd_zero 24

theorem fl64_zero : fl64 0 = 0 := rnd_zero 53

theorem two_zpow_pos (e : ℤ) : (0:ℚ) < 2 ^ e := zpow_pos (by norm_num) e

theorem log2_le (q : ℚ) (hq : q ≠ 0) : (2:ℚ) ^ Int.log 2 |q| ≤ |q| := by
  simpa using Int.zpow_log_le_self (R := ℚ) (b := 2) (by norm_num) (abs_pos.mpr hq)

theorem lt_log2_succ (q : ℚ) : |q| < 2 ^ (Int.log 2 |q| + 1) := by
  simpa using Int.lt_zpow_succ_log_self (R := ℚ) (b := 2) (by norm_num) |q|

theorem log_eq_of_sandwich {r : ℚ} (L : ℤ) (h0 : 0 < r) (h1 : (2:ℚ) ^ L ≤ r)
    (h2 : r < 2 ^ (L + 1)) : Int.log 2 r = L := by
  have hle : L ≤ Int.log 2 r :=
    (Int.zpow_le_iff_le_log (b := 2) (by norm_num) h0).mp (by simpa using h1)
  have hlt : Int.log 2 r < L + 1 :=
    (Int.lt_zpow_iff_log_lt (b := 2) (by norm_num) h0).mp (by simpa using h2)
  omega

theorem rne_eq_of_lt (q : ℚ) (f : ℤ) (hf : (f:ℚ) ≤ q) (h : q - f < 1/2) : rne q = f := by
  have hfl : ⌊q⌋ = f := Int.floor_eq_iff.mpr ⟨hf, by linarith⟩
  rw [rne, hfl, if_pos (by linarith)]

theorem rne_eq_of_gt (q : ℚ) (f : ℤ) (hf : q < (f:ℚ) + 1) (h : 1/2 < q - f) : rne q = f + 1 := by
  have hfl : ⌊q⌋ = f := Int.floor_eq_iff.mpr ⟨by linarith, hf⟩
  rw [rne, hfl, if_neg (by linarith), if_pos (by linarith)]

theorem rne_eq_tie_even (q : ℚ) (f : ℤ) (h : q - f = 1/2) (he : f % 2 = 0) : rne q = f := by
  have hfl : ⌊q⌋ = f := Int.floor_eq_iff.mpr ⟨by linarith, by linarith⟩
  rw [rne, hfl, if_neg (by linarith), if_neg (by linarith), if_pos he]

theorem rne_eq_tie_odd (q : ℚ) (f : ℤ) (h : q - f = 1/2) (he : ¬ f % 2 = 0) : rne q = f + 1 := by
  have hfl : ⌊q⌋ = f := Int.floor_eq_iff.mpr ⟨by linarith, by linarith⟩
  rw [rne, hfl, if_neg (by linarith), if_neg (by linarith), if_neg he]

theorem rnd_eval (p : ℕ) (q : ℚ) (L : ℤ) (h1 : (2:ℚ) ^ L ≤ |q|) (h2 : |q| < 2 ^ (L + 1)) :
    rnd p q = ((rne (q / 2 ^ (L - (p - 1 : ℤ)))) : ℚ) * 2 ^ (L - (p - 1 : ℤ)) := by
  have h0 : 0 < |q| := lt_of_lt_of_le (two_zpow_pos L) h1
  have hq : q ≠ 0 := abs_pos.mp h0
  rw [rnd, if_neg hq, log_eq_of_sandwich L h0 h1 h2]

theorem rnd_err (p : ℕ) (q : ℚ) : |rnd p q - q| ≤ |q| / 2 ^ p := by
  rcases eq_or_ne q 0 with rfl | hq
  · simp [rnd]
  · set L : ℤ := Int.log 2 |q| with hL
    have hlow : (2 : ℚ) ^ L ≤ |q| := log2_le q hq
    set e : ℤ := L - (p - 1 : ℤ) with hedef
    have he : rnd p q = ((rne (q / 2 ^ e)) : ℚ) * 2 ^ e := by
      rw [rnd, if_neg hq]
    set s : ℚ := q / 2 ^ e with hs
    have hpow : (0 : ℚ) < 2 ^ e := two_zpow_pos e
    have key : |rnd p q - q| = |(rne s : ℚ) - s| * 2 ^ e := by
      rw [he, hs]
      rw [show ((rne (q / 2 ^ e) : ℚ)) * 2 ^ e - q = ((rne (q / 2 ^ e) : ℚ)) * 2 ^ e - (q / 2 ^ e) * 2 ^ e by
        field_simp]
      rw [← sub_mul, abs_mul, abs_of_pos hpow]
    rw [key]
    have h1 : |(rne s : ℚ) - s| * 2 ^ e ≤ (1/2) * 2 ^ e :=
      mul_le_mul_of_nonneg_right (rne_close s) (le_of_lt hpow)
    have h2 : (1/2 : ℚ) * 2 ^ e = 2 ^ (L - p) := by
      rw [hedef, show L - (p - 1 : ℤ) = L - p + 1 by ring,
        zpow_add₀ (by norm_num : (2:ℚ) ≠ 0)]
      ring
    have h3 : (2 : ℚ) ^ (L - p) ≤ |q| / 2 ^ p := by
      have hp : (2:ℚ) ^ (L - (p:ℤ)) = 2 ^ L / 2 ^ (p:ℕ) := by
        rw [zpow_sub₀ (by norm_num : (2:ℚ) ≠ 0), zpow_natCast]
      rw [hp]
      gcongr
    linarith

theorem rnd_scale (p : ℕ) (q : ℚ) (k : ℤ) : rnd p (q * 2 ^ k) = rnd p q * 2 ^ k := by
  rcases eq_or_ne q 0 with rfl | hq
  · simp [rnd]
  · have h2k : (0:ℚ) < 2 ^ k := two_zpow_pos k
    have hq2 : q * 2 ^ k ≠ 0 := mul_ne_zero hq (ne_of_gt h2k)
    have habs : |q * 2 ^ k| = |q| * 2 ^ k := by
      rw [abs_mul, abs_of_pos h2k]
    have hlog : Int.log 2 |q * 2 ^ k| = Int.log 2 |q| + k := by
      rw [habs]
      refine log_eq_of_sandwich _ (by positivity) ?_ ?_
      · rw [zpow_add₀ (by norm_num : (2:ℚ) ≠ 0)]
        exact mul_le_mul_of_nonneg_right (log2_le q hq) (le_of_lt h2k)
      · rw [show Int.log 2 |q| + k + 1 = (Int.log 2 |q| + 1) + k by ring,
          zpow_add₀ (by norm_num : (2:ℚ) ≠ 0)]
        exact mul_lt_mul_of_pos_right (lt_log2_succ q) h2k
    rw [rnd, if_neg hq2, rnd, if_neg hq, hlog]
    have harg : q * 2 ^ k / 2 ^ (Int.log 2 |q| + k - (p - 1 : ℤ)) =
        q / 2 ^ (Int.log 2 |q| - (p - 1 : ℤ)) := by
      rw [show Int.log 2 |q| + k - (p - 1 : ℤ) = (Int.log 2 |q| - (p - 1 : ℤ)) + k by ring,
        zpow_add₀ (by norm_num : (2:ℚ) ≠ 0)]
      field_simp
      ring
    rw [harg, show Int.log 2 |q| + k - (p - 1 : ℤ) = (Int.log 2 |q| - (p - 1 : ℤ)) + k by ring,
      zpow_add₀ (by norm_num : (2:ℚ) ≠ 0)]
    ring

theorem rnd_int (p : ℕ) (n : ℤ) (hp : 1 ≤ p) (hn : |n| ≤ 2 ^ p) : rnd p (n : ℚ) = n := by
  rcases eq_or_ne n 0 with rfl | hn0
  · simp [rnd]
  · have habs : (0:ℚ) < |(n:ℚ)| := by simp [abs_pos, hn0]
    have hqne : (n:ℚ) ≠ 0 := by exact_mod_cast hn0
    set L : ℤ := Int.log 2 |(n:ℚ)| with hL
    have hlow : (2:ℚ) ^ L ≤ |(n:ℚ)| := log2_le _ hqne
    have hupp : |(n:ℚ)| < 2 ^ (L + 1) := lt_log2_succ _
    have hbound : |(n:ℚ)| ≤ 2 ^ (p:ℤ) := by
      rw [zpow_natCast, ← Int.cast_abs]
      exact_mod_cast hn
    have hLp : L ≤ (p:ℤ) := by
      by_contra hc
      push_neg at hc
      have h1 : (2:ℚ) ^ ((p:ℤ) + 1) ≤ 2 ^ L := zpow_le_zpow_right₀ (by norm_num) (by omega)
      have h2 : (2:ℚ) ^ ((p:ℤ) + 1) = 2 ^ (p:ℤ) * 2 := by
        rw [zpow_add₀ (by norm_num : (2:ℚ) ≠ 0)]; ring
      have h3 : (0:ℚ) < 2 ^ (p:ℤ) := two_zpow_pos _
      nlinarith
    rcases lt_or_eq_of_le hLp with hLlt | hLeq
    · set e : ℤ := L - (p - 1 : ℤ) with hedef
      have hele : e ≤ 0 := by omega
      have hsint : (n:ℚ) / 2 ^ e = ((n * 2 ^ (-e).toNat : ℤ) : ℚ) := by
        rw [div_eq_iff (ne_of_gt (two_zpow_pos e))]
        push_cast
        rw [mul_assoc, ← zpow_natCast (2:ℚ) (-e).toNat,
          ← zpow_add₀ (by norm_num : (2:ℚ) ≠ 0)]
        rw [show ((-e).toNat : ℤ) + e = 0 by omega]
        norm_num
      rw [rnd, if_neg hqne, ← hedef, hsint, rne_int]
      push_cast
      rw [mul_assoc, ← zpow_natCast (2:ℚ) (-e).toNat, ← zpow_add₀ (by norm_num : (2:ℚ) ≠ 0)]
      rw [show ((-e).toNat : ℤ) + e = 0 by omega]
      norm_num
    · have h2p : (2:ℚ) ^ (p:ℤ) ≤ |(n:ℚ)| := by rw [← hLeq]; exact hlow
      have heq : |(n:ℚ)| = 2 ^ (p:ℤ) := le_antisymm hbound h2p
      set e : ℤ := L - (p - 1 : ℤ) with hedef
      have he1 : e = 1 := by omega
      have hniz : |n| = 2 ^ p := by
        have h := heq
        rw [zpow_natCast, ← Int.cast_abs] at h
        exact_mod_cast h
      have hdvd : (2:ℤ) ∣ n := by
        have h2 : (2:ℤ) ∣ |n| := by
          rw [hniz]
          exact dvd_pow_self 2 (by omega)
        exact (dvd_abs 2 n).mp h2
      obtain ⟨m, hm⟩ := hdvd
      have hsint : (n:ℚ) / 2 ^ e = ((m : ℤ) : ℚ) := by
        rw [he1, hm]
        push_cast
        rw [zpow_one]
        ring
      rw [rnd, if_neg hqne, ← hedef, hsint, rne_int]
      rw [he1, hm]
      push_cast
      rw [zpow_one]
      ring

theorem rnd_fix (p : ℕ) (m k : ℤ) (hp : 1 ≤ p) (hm : |m| ≤ 2 ^ p) :
    rnd p ((m:ℚ) * 2 ^ k) = (m:ℚ) * 2 ^ k := by
  rw [rnd_scale, rnd_int p m hp hm]

theorem rne_neg (q : ℚ) : rne (-q) = -(rne q) := by
  rcases lt_trichotomy (q - ⌊q⌋) (1/2) with hlt | heq | hgt
  · rcases eq_or_ne q ⌊q⌋ with hint | hfrac
    · rw [hint, show -((⌊q⌋:ℤ):ℚ) = ((-⌊q⌋ : ℤ):ℚ) by push_cast; ring, rne_int, rne_int]
    · have hfl : ((⌊q⌋:ℤ):ℚ) < q := lt_of_le_of_ne (Int.floor_le q) (Ne.symm hfrac)
      have h1 : rne q = ⌊q⌋ := rne_eq_of_lt q ⌊q⌋ (Int.floor_le q) hlt
      have h2 : rne (-q) = (-⌊q⌋ - 1) + 1 :=
        rne_eq_of_gt (-q) (-⌊q⌋ - 1) (by push_cast; linarith) (by push_cast; linarith)
      rw [h1, h2]
      ring
  · rcases Int.emod_two_eq_zero_or_one ⌊q⌋ with hpar | hpar
    · have h1 : rne q = ⌊q⌋ := rne_eq_tie_even q ⌊q⌋ (by linarith) hpar
      have h2 : rne (-q) = (-⌊q⌋ - 1) + 1 :=
        rne_eq_tie_odd (-q) (-⌊q⌋ - 1) (by push_cast; linarith) (by omega)
      rw [h1, h2]
      ring
    · have h1 : rne q = ⌊q⌋ + 1 := rne_eq_tie_odd q ⌊q⌋ (by linarith) (by omega)
      have h2 : rne (-q) = -⌊q⌋ - 1 :=
        rne_eq_tie_even (-q) (-⌊q⌋ - 1) (by push_cast; linarith) (by omega)
      rw [h1, h2]
      ring
  · have hlt1 : q - ⌊q⌋ < 1 := by
      have := Int.lt_floor_add_one q
      linarith
    have h1 : rne q = ⌊q⌋ + 1 := rne_eq_of_gt q ⌊q⌋ (Int.lt_floor_add_one q) hgt
    have h2 : rne (-q) = -⌊q⌋ - 1 :=
      rne_eq_of_lt (-q) (-⌊q⌋ - 1) (by push_cast; linarith) (by push_cast; linarith)
    rw [h1, h2]
    ring

theorem rnd_neg (p : ℕ) (q : ℚ) : rnd p (-q) = -(rnd p q) := by
  rcases eq_or_ne q 0 with rfl | hq
  · simp [rnd]
  · have hq2 : -q ≠ 0 := neg_ne_zero.mpr hq
    rw [rnd, if_neg hq2, rnd, if_neg hq, abs_neg, neg_div, rne_neg]
    push_cast
    ring

theorem rnd_form (p : ℕ) (q : ℚ) : ∃ m k : ℤ, |m| ≤ 2 ^ p ∧ rnd p q = (m:ℚ) * 2 ^ k := by
  rcases eq_or_ne q 0 with rfl | hq
  · exact ⟨0, 0, by norm_num, by simp [rnd]⟩
  · set e : ℤ := Int.log 2 |q| - (p - 1 : ℤ) with hedef
    set s : ℚ := q / 2 ^ e with hs
    refine ⟨rne s, e, ?_, by rw [rnd, if_neg hq]⟩
    have hupp : |q| < 2 ^ (Int.log 2 |q| + 1) := lt_log2_succ q
    have hsb : |s| < 2 ^ p := by
      rw [hs, abs_div, abs_of_pos (two_zpow_pos e)]
      rw [div_lt_iff₀ (two_zpow_pos e)]
      calc |q| < 2 ^ (Int.log 2 |q| + 1) := hupp
      _ = 2 ^ (p:ℕ) * 2 ^ e := by
          rw [← zpow_natCast (2:ℚ) p, ← zpow_add₀ (by norm_num : (2:ℚ) ≠ 0)]
          congr 1
          omega
    have hclose := rne_close s
    have h2 : |(rne s : ℚ)| < 2 ^ p + 1/2 := by
      have h1 : |(rne s : ℚ)| ≤ |s| + |(rne s : ℚ) - s| := by
        have := abs_add s ((rne s : ℚ) - s)
        simpa using this
      linarith
    have h3 : ((|rne s| : ℤ) : ℚ) < ((2 ^ p + 1 : ℤ) : ℚ) := by
      rw [Int.cast_abs]
      push_cast
      linarith
    have h4 : |rne s| < 2 ^ p + 1 := by exact_mod_cast h3
    omega

theorem roundAway_close (q : ℚ) : |(roundAway q : ℚ) - q| ≤ 1/2 := by
  rw [roundAway]
  split_ifs with hq
  · have h1 : ((⌊q + 1/2⌋:ℤ):ℚ) ≤ q + 1/2 := Int.floor_le _
    have h2 : q + 1/2 < ⌊q + 1/2⌋ + 1 := Int.lt_floor_add_one _
    rw [abs_le]
    constructor <;> linarith
  · have h1 : ((⌊-q + 1/2⌋:ℤ):ℚ) ≤ -q + 1/2 := Int.floor_le _
    have h2 : -q + 1/2 < ⌊-q + 1/2⌋ + 1 := Int.lt_floor_add_one _
    rw [abs_le]
    push_cast
    constructor <;> linarith

theorem rnd_abs_le (p : ℕ) (q : ℚ) : |rnd p q| ≤ |q| + |q| / 2 ^ p := by
  have h := rnd_err p q
  have h2 : |rnd p q| ≤ |q| + |rnd p q - q| := by
    have := abs_add q (rnd p q - q)
    simpa using this
  linarith

theorem abs_le_of_rnd (p : ℕ) (q B : ℚ) (hb : |rnd p q| ≤ B) : |q| ≤ B + |q| / 2 ^ p := by
  have h := rnd_err p q
  have h2 : |q| ≤ |rnd p q| + |rnd p q - q| := by
    have := abs_add (rnd p q) (q - rnd p q)
    have h3 : |q - rnd p q| = |rnd p q - q| := abs_sub_comm _ _
    simp at this
    linarith
  linarith

-- ===== Concrete evaluation helpers =====

theorem floor_eval (q : ℚ) (n : ℤ) (h1 : (n:ℚ) ≤ q) (h2 : q < n + 1) : ⌊q⌋ = n :=
  Int.floor_eq_iff.mpr ⟨h1, h2⟩

theorem roundAway_eval_pos (q : ℚ) (n : ℤ) (h0 : 0 ≤ q) (h1 : (n:ℚ) ≤ q + 1/2)
    (h2 : q + 1/2 < n + 1) : roundAway q = n := by
  rw [roundAway, if_pos h0, floor_eval _ n h1 h2]

theorem roundAway_eval_neg (q : ℚ) (n : ℤ) (h0 : ¬ 0 ≤ q) (h1 : (n:ℚ) ≤ -q + 1/2)
    (h2 : -q + 1/2 < n + 1) : roundAway q = -n := by
  rw [roundAway, if_neg h0, floor_eval _ n h1 h2]

theorem fl64_fix_of (q : ℚ) (m k : ℤ) (hm : |m| ≤ 2 ^ 53) (hq : q = (m:ℚ) * 2 ^ k) :
    fl64 q = q := by
  rw [hq, fl64, rnd_fix 53 m k (by norm_num) hm]

theorem fl32_fix_of (q : ℚ) (m k : ℤ) (hm : |m| ≤ 2 ^ 24) (hq : q = (m:ℚ) * 2 ^ k) :
    fl32 q = q := by
  rw [hq, fl32, rnd_fix 24 m k (by norm_num) hm]

theorem fl64_err_of (q B : ℚ) (hq : |q| ≤ B) : |fl64 q - q| ≤ B / 2 ^ 53 := by
  have h := rnd_err 53 q
  have h2 : |q| / 2 ^ 53 ≤ B / 2 ^ 53 := by gcongr
  rw [fl64]
  linarith

theorem fl32_err_of (q B : ℚ) (hq : |q| ≤ B) : |fl32 q - q| ≤ B / 2 ^ 24 := by
  have h := rnd_err 24 q
  have h2 : |q| / 2 ^ 24 ≤ B / 2 ^ 24 := by gcongr
  rw [fl32]
  linarith

theorem wrap_id (n : ℤ) (h1 : -(2^63) ≤ n) (h2 : n < 2^63) : wrap 64 n = n := by
  rw [wrap]
  norm_num
  rw [Int.emod_eq_of_lt (by omega) (by omega)]
  ring

theorem wrap_zero : wrap 64 0 = 0 := wrap_id 0 (by norm_num) (by norm_num)

theorem tol_bounds : 999999/1000000000000 ≤ tol ∧ tol ≤ 1000001/1000000000000 := by
  have h := rnd_err 24 (1/1000000)
  rw [tol, fl32]
  rw [abs_le] at h
  rw [show |(1/1000000 : ℚ)| = 1/1000000 by norm_num] at h
  constructor <;> [linarith [h.1]; linarith [h.2]]

theorem minprec_bounds : 487999/1000000000 ≤ MIN_PRECISION ∧
    MIN_PRECISION ≤ 488001/1000000000 := by
  have h := rnd_err 24 (488/1000000)
  rw [MIN_PRECISION, fl32]
  rw [abs_le] at h
  rw [show |(488/1000000 : ℚ)| = 488/1000000 by norm_num] at h
  constructor <;> [linarith [h.1]; linarith [h.2]]

-- ===== Error-chain lemmas for the conversion paths =====

theorem int_cast_abs_le (n : ℤ) (B : ℤ) (h : |n| ≤ B) : |(n:ℚ)| ≤ (B:ℚ) := by
  rw [← Int.cast_abs]
  exact_mod_cast h

theorem reconOf_err (g : ℤ) (l : ℚ) (hg : |g| ≤ 2^31 + 2) (hl : |l| ≤ 10242) :
    |reconOf g l - ((g:ℚ) * 2048 + l)| ≤ 489/1000000 := by
  have hgq : |(g:ℚ)| ≤ (2:ℚ)^31 + 2 := by
    have := int_cast_abs_le g (2^31 + 2) hg
    push_cast at this
    linarith
  have ht : fl64 ((g:ℚ) * CELL_SIZE) = (g:ℚ) * 2048 := by
    rw [CELL_SIZE]
    apply fl64_fix_of _ (g * 2048) 0
    · have h1 : |g * 2048| = |g| * 2048 := by
        rw [abs_mul]
        norm_num
      have h2 : |g| * 2048 ≤ (2^31 + 2) * 2048 := by nlinarith [abs_nonneg g]
      rw [h1]
      nlinarith
    · push_cast
      rw [zpow_zero]
      ring
  have hinner : |(g:ℚ) * 2048 + l| ≤ 2^42 + 4096 + 10242 := by
    have h1 := abs_add ((g:ℚ) * 2048) l
    have h2 : |(g:ℚ) * 2048| = |(g:ℚ)| * 2048 := by
      rw [abs_mul]
      norm_num
    nlinarith [abs_nonneg ((g:ℚ))]
  have herr := fl64_err_of ((g:ℚ) * 2048 + l) (2^42 + 4096 + 10242) hinner
  rw [reconOf, ht]
  calc |fl64 ((g:ℚ) * 2048 + l) - ((g:ℚ) * 2048 + l)| ≤ (2^42 + 4096 + 10242) / 2 ^ 53 := herr
  _ ≤ 489/1000000 := by norm_num

theorem dchain (v : ℚ) (m k : ℤ) (hm : |m| ≤ 2 ^ 53) (hv : v = (m:ℚ) * 2 ^ k)
    (hr : |v| ≤ 2 ^ 42) :
    |v - (cellOf v : ℚ) * CELL_SIZE| ≤ 1024 ∧
    |localOf v - (v - (cellOf v : ℚ) * CELL_SIZE)| ≤ 62/1000000 ∧
    |reconOf (cellOf v) (localOf v) - v| ≤ 551/1000000 := by
  have hdiv : fl64 (v / CELL_SIZE) = v / CELL_SIZE := by
    apply fl64_fix_of _ m (k - 11) hm
    rw [hv, CELL_SIZE, show (2048:ℚ) = 2 ^ (11:ℤ) by norm_num, mul_div_assoc,
      ← zpow_sub₀ (by norm_num : (2:ℚ) ≠ 0)]
  have hgeq : cellOf v = roundAway (v / 2048) := by
    rw [cellOf, hdiv, CELL_SIZE]
  set g : ℤ := cellOf v with hgdef
  have hra := roundAway_close (v / 2048)
  rw [← hgeq] at hra
  have h1 : |v - (g:ℚ) * CELL_SIZE| ≤ 1024 := by
    rw [CELL_SIZE]
    rw [abs_le] at hra ⊢
    obtain ⟨ha, hb⟩ := hra
    constructor <;> linarith
  have hdivb : |v / 2048| ≤ 2^31 := by
    rw [abs_div, show |(2048:ℚ)| = 2048 by norm_num, div_le_iff₀ (by norm_num : (0:ℚ) < 2048)]
    have : (2:ℚ)^42 = 2^31 * 2048 := by norm_num
    linarith
  have hgb : |g| ≤ 2 ^ 31 := by
    have hq : |(g:ℚ)| ≤ 2^31 + 1/2 := by
      have htr : |(g:ℚ)| ≤ |(g:ℚ) - v/2048| + |v/2048| := by
        have := abs_add ((g:ℚ) - v/2048) (v/2048)
        simpa using this
      linarith [hra]
    by_contra hc
    push_neg at hc
    have hc2 : (2^31 + 1 : ℤ) ≤ |g| := by omega
    have hc3 : ((2^31 + 1 : ℤ):ℚ) ≤ ((|g|:ℤ):ℚ) := by exact_mod_cast hc2
    rw [Int.cast_abs] at hc3
    push_cast at hc3
    linarith
  have hgq : |(g:ℚ)| ≤ (2:ℚ)^31 := by
    have := int_cast_abs_le g (2^31) hgb
    push_cast at this
    linarith
  have ht : fl64 ((g:ℚ) * CELL_SIZE) = (g:ℚ) * 2048 := by
    rw [CELL_SIZE]
    apply fl64_fix_of _ (g * 2048) 0
    · have ha1 : |g * 2048| = |g| * 2048 := by
        rw [abs_mul]
        norm_num
      rw [ha1]
      nlinarith [abs_nonneg g]
    · push_cast
      rw [zpow_zero]
      ring
  have hloc : localOf v = fl32 (fl64 (v - (g:ℚ) * 2048)) := by
    rw [localOf, ← hgdef, ht]
  have herr_s := fl64_err_of (v - (g:ℚ) * 2048) 1024 (by
    have := h1
    rw [CELL_SIZE] at this
    exact this)
  have habs_s : |fl64 (v - (g:ℚ) * 2048)| ≤ 1025 := by
    have htr : |fl64 (v - (g:ℚ) * 2048)| ≤ |v - (g:ℚ) * 2048| + |fl64 (v - (g:ℚ) * 2048) - (v - (g:ℚ) * 2048)| := by
      have := abs_add (v - (g:ℚ) * 2048) (fl64 (v - (g:ℚ) * 2048) - (v - (g:ℚ) * 2048))
      simpa using this
    have h1x : |v - (g:ℚ) * 2048| ≤ 1024 := by
      have := h1
      rw [CELL_SIZE] at this
      exact this
    have hd : (1024:ℚ)/2^53 ≤ 1 := by norm_num
    linarith
  have herr_l := fl32_err_of (fl64 (v - (g:ℚ) * 2048)) 1025 habs_s
  have conj2 : |localOf v - (v - (g:ℚ) * CELL_SIZE)| ≤ 62/1000000 := by
    rw [hloc, CELL_SIZE]
    have htr : |fl32 (fl64 (v - (g:ℚ) * 2048)) - (v - (g:ℚ) * 2048)| ≤
        |fl32 (fl64 (v - (g:ℚ) * 2048)) - fl64 (v - (g:ℚ) * 2048)| +
        |fl64 (v - (g:ℚ) * 2048) - (v - (g:ℚ) * 2048)| := by
      have := abs_add (fl32 (fl64 (v - (g:ℚ) * 2048)) - fl64 (v - (g:ℚ) * 2048))
        (fl64 (v - (g:ℚ) * 2048) - (v - (g:ℚ) * 2048))
      simpa using this
    have hc1 : (1025:ℚ)/2^24 + 1024/2^53 ≤ 62/1000000 := by norm_num
    linarith
  have habs_l : |localOf v| ≤ 1025 := by
    have h1x : |v - (g:ℚ) * CELL_SIZE| ≤ 1024 := h1
    have htr : |localOf v| ≤ |v - (g:ℚ) * CELL_SIZE| + |localOf v - (v - (g:ℚ) * CELL_SIZE)| := by
      have := abs_add (v - (g:ℚ) * CELL_SIZE) (localOf v - (v - (g:ℚ) * CELL_SIZE))
      simpa using this
    linarith
  refine ⟨h1, conj2, ?_⟩
  have hrec := reconOf_err g (localOf v) (by omega) (by linarith)
  have htr : |reconOf g (localOf v) - v| ≤
      |reconOf g (localOf v) - ((g:ℚ) * 2048 + localOf v)| +
      |((g:ℚ) * 2048 + localOf v) - v| := by
    have := abs_add (reconOf g (localOf v) - ((g:ℚ) * 2048 + localOf v))
      (((g:ℚ) * 2048 + localOf v) - v)
    simpa using this
  have heq2 : |((g:ℚ) * 2048 + localOf v) - v| = |localOf v - (v - (g:ℚ) * CELL_SIZE)| := by
    rw [CELL_SIZE]
    ring_nf
  rw [heq2] at htr
  linarith

theorem inRange_abs (v : ℚ) (hr : inRange v) : |v| ≤ 2 ^ 42 := by
  obtain ⟨hlo, hhi⟩ := hr
  simp only [MIN_COORDINATE, MAX_COORDINATE, CELL_SIZE] at hlo hhi
  rw [abs_le]
  norm_num at hlo hhi ⊢
  constructor <;> linarith

theorem inRange_of_small (v : ℚ) (hv : |v| ≤ 4398046509056) : inRange v := by
  rw [abs_le] at hv
  constructor
  · rw [MIN_COORDINATE, CELL_SIZE]
    norm_num
    linarith [hv.1]
  · rw [MAX_COORDINATE, CELL_SIZE]
    norm_num
    linarith [hv.2]

theorem double_axis (v : ℚ) (hfix : fl64 v = v) (hr : inRange v) :
    |v - (cellOf v : ℚ) * CELL_SIZE| ≤ 1024 ∧
    |localOf v - (v - (cellOf v : ℚ) * CELL_SIZE)| ≤ 62/1000000 ∧
    |reconOf (cellOf v) (localOf v) - v| ≤ 551/1000000 := by
  obtain ⟨m, k, hm, hform⟩ := rnd_form 53 v
  rw [fl64] at hfix
  have hv : v = (m:ℚ) * 2 ^ k := by rw [← hfix, hform]
  exact dchain v m k hm hv (inRange_abs v hr)

-- concrete evaluation helpers for cellOf and localOf
theorem cellOf_eval (v q : ℚ) (n : ℤ) (hq : v / 2048 = q) (hfix : fl64 q = q)
    (hra : roundAway q = n) : cellOf v = n := by
  rw [cellOf, CELL_SIZE, hq, hfix, hra]

theorem localOf_eval (v out : ℚ) (c : ℤ) (hc : cellOf v = c) (hcb : |c * 2048| ≤ 2 ^ 53)
    (hsub : v - (c:ℚ) * 2048 = out)
    (h64 : fl64 out = out) (h32 : fl32 out = out) : localOf v = out := by
  rw [localOf, hc, CELL_SIZE]
  rw [fl64_fix_of ((c:ℚ) * 2048) (c * 2048) 0 hcb (by push_cast; rw [zpow_zero]; ring)]
  rw [hsub, h64, h32]

/-- Claim C1: for every double-precision coordinate c whose components all
lie in [MIN_COORDINATE, MAX_COORDINATE], to_double3 applied to the position
built by from_double3 returns c componentwise within CELL_SIZE tolerance
(no assert fires, and the error is in fact far below CELL_SIZE, bounded by
the single-precision rounding of the local offset). -/
theorem C1_absolute_roundtrip (c : Double3)
    (hx : fl64 c.x = c.x) (hy : fl64 c.y = c.y) (hz : fl64 c.z = c.z)
    (hrx : inRange c.x) (hry : inRange c.y) (hrz : inRange c.z) :
    ∃ p, from_double3 c = some p ∧
      |(to_double3 p).x - c.x| ≤ CELL_SIZE ∧
      |(to_double3 p).y - c.y| ≤ CELL_SIZE ∧
      |(to_double3 p).z - c.z| ≤ CELL_SIZE := by
  have hb : ∀ v : ℚ, fl64 v = v → inRange v →
      |reconOf (cellOf v) (localOf v) - v| ≤ CELL_SIZE := by
    intro v hfix hr
    have h := (double_axis v hfix hr).2.2
    rw [CELL_SIZE]
    linarith
  refine ⟨_, by rw [from_double3, if_pos ⟨hrx, hry, hrz⟩], ?_, ?_, ?_⟩
  · exact hb c.x hx hrx
  · exact hb c.y hy hry
  · exact hb c.z hz hrz

theorem C1_absolute_roundtrip_witness :
    ∃ p, from_double3 ⟨1000, 2000, 3000⟩ = some p ∧
      |(to_double3 p).x - (1000:ℚ)| ≤ CELL_SIZE ∧
      |(to_double3 p).y - (2000:ℚ)| ≤ CELL_SIZE ∧
      |(to_double3 p).z - (3000:ℚ)| ≤ CELL_SIZE :=
  C1_absolute_roundtrip ⟨1000, 2000, 3000⟩
    (fl64_fix_of _ 1000 0 (by norm_num) (by norm_num))
    (fl64_fix_of _ 2000 0 (by norm_num) (by norm_num))
    (fl64_fix_of _ 3000 0 (by norm_num) (by norm_num))
    (inRange_of_small _ (by norm_num))
    (inRange_of_small _ (by norm_num))
    (inRange_of_small _ (by norm_num))

/-- Claim C3: if every component of the offset has magnitude at most
THRESHOLD = 0.75 * CELL_SIZE (threshold included), from_float3 keeps the
position in the origin cell: global = origin and local = offset, unchanged. -/
theorem C3_hysteresis_keeps_origin (o : Int3) (l : Float3)
    (hx : |l.x| ≤ THRESHOLD) (hy : |l.y| ≤ THRESHOLD) (hz : |l.z| ≤ THRESHOLD) :
    from_float3 o l = some ⟨o, l⟩ := by
  have h1 : |l.x| ≤ CELL_SIZE * 3 := by rw [CELL_SIZE]; rw [THRESHOLD] at hx; linarith
  have h2 : |l.y| ≤ CELL_SIZE * 3 := by rw [CELL_SIZE]; rw [THRESHOLD] at hy; linarith
  have h3 : |l.z| ≤ CELL_SIZE * 3 := by rw [CELL_SIZE]; rw [THRESHOLD] at hz; linarith
  rw [from_float3, if_pos ⟨h1, h2, h3⟩, if_pos ⟨hx, hy, hz⟩]

theorem C3_hysteresis_keeps_origin_witness :
    from_float3 ⟨0, 0, 0⟩ ⟨1536, -1536, 0⟩ = some ⟨⟨0, 0, 0⟩, ⟨1536, -1536, 0⟩⟩ :=
  C3_hysteresis_keeps_origin ⟨0, 0, 0⟩ ⟨1536, -1536, 0⟩
    (by rw [THRESHOLD]; norm_num) (by rw [THRESHOLD]; norm_num) (by rw [THRESHOLD]; norm_num)

/-- Claim C4: from_double3 on (1000, 2000, 3000) yields global = (0, 1, 1)
and local = (1000, -48, 952); on (-500, -1000, -2500) it yields
global = (0, 0, -1) and local = (-500, -1000, -452). -/
theorem C4_concrete_construction :
    from_double3 ⟨1000, 2000, 3000⟩ = some ⟨⟨0, 1, 1⟩, ⟨1000, -48, 952⟩⟩ ∧
    from_double3 ⟨-500, -1000, -2500⟩ = some ⟨⟨0, 0, -1⟩, ⟨-500, -1000, -452⟩⟩ := by
  have c1 : cellOf 1000 = 0 := cellOf_eval _ (125/256) 0 (by norm_num)
    (fl64_fix_of _ 125 (-8) (by norm_num) (by norm_num))
    (roundAway_eval_pos _ 0 (by norm_num) (by norm_num) (by norm_num))
  have c2 : cellOf 2000 = 1 := cellOf_eval _ (125/128) 1 (by norm_num)
    (fl64_fix_of _ 125 (-7) (by norm_num) (by norm_num))
    (roundAway_eval_pos _ 1 (by norm_num) (by norm_num) (by norm_num))
  have c3 : cellOf 3000 = 1 := cellOf_eval _ (375/256) 1 (by norm_num)
    (fl64_fix_of _ 375 (-8) (by norm_num) (by norm_num))
    (roundAway_eval_pos _ 1 (by norm_num) (by norm_num) (by norm_num))
  have c4 : cellOf (-500) = 0 := cellOf_eval _ (-125/512) 0 (by norm_num)
    (fl64_fix_of _ (-125) (-9) (by norm_num) (by norm_num))
    (by
      have := roundAway_eval_neg (-125/512) 0 (by norm_num) (by norm_num) (by norm_num)
      simpa using this)
  have c5 : cellOf (-1000) = 0 := cellOf_eval _ (-125/256) 0 (by norm_num)
    (fl64_fix_of _ (-125) (-8) (by norm_num) (by norm_num))
    (by
      have := roundAway_eval_neg (-125/256) 0 (by norm_num) (by norm_num) (by norm_num)
      simpa using this)
  have c6 : cellOf (-2500) = -1 := cellOf_eval _ (-625/512) (-1) (by norm_num)
    (fl64_fix_of _ (-625) (-9) (by norm_num) (by norm_num))
    (roundAway_eval_neg _ 1 (by norm_num) (by norm_num) (by norm_num))
  have l1 : localOf 1000 = 1000 := localOf_eval _ 1000 0 c1 (by norm_num) (by norm_num)
    (fl64_fix_of _ 1000 0 (by norm_num) (by norm_num))
    (fl32_fix_of _ 1000 0 (by norm_num) (by norm_num))
  have l2 : localOf 2000 = -48 := localOf_eval _ (-48) 1 c2 (by norm_num) (by norm_num)
    (fl64_fix_of _ (-48) 0 (by norm_num) (by norm_num))
    (fl32_fix_of _ (-48) 0 (by norm_num) (by norm_num))
  have l3 : localOf 3000 = 952 := localOf_eval _ 952 1 c3 (by norm_num) (by norm_num)
    (fl64_fix_of _ 952 0 (by norm_num) (by norm_num))
    (fl32_fix_of _ 952 0 (by norm_num) (by norm_num))
  have l4 : localOf (-500) = -500 := localOf_eval _ (-500) 0 c4 (by norm_num) (by norm_num)
    (fl64_fix_of _ (-500) 0 (by norm_num) (by norm_num))
    (fl32_fix_of _ (-500) 0 (by norm_num) (by norm_num))
  have l5 : localOf (-1000) = -1000 := localOf_eval _ (-1000) 0 c5 (by norm_num) (by norm_num)
    (fl64_fix_of _ (-1000) 0 (by norm_num) (by norm_num))
    (fl32_fix_of _ (-1000) 0 (by norm_num) (by norm_num))
  have l6 : localOf (-2500) = -452 := localOf_eval _ (-452) (-1) c6 (by norm_num) (by norm_num)
    (fl64_fix_of _ (-452) 0 (by norm_num) (by norm_num))
    (fl32_fix_of _ (-452) 0 (by norm_num) (by norm_num))
  have hcond1 : inRange (1000:ℚ) ∧ inRange (2000:ℚ) ∧ inRange (3000:ℚ) :=
    ⟨inRange_of_small _ (by norm_num), inRange_of_small _ (by norm_num),
      inRange_of_small _ (by norm_num)⟩
  have hcond2 : inRange (-500:ℚ) ∧ inRange (-1000:ℚ) ∧ inRange (-2500:ℚ) :=
    ⟨inRange_of_small _ (by norm_num), inRange_of_small _ (by norm_num),
      inRange_of_small _ (by norm_num)⟩
  constructor
  · simp only [from_double3]
    rw [if_pos hcond1, c1, c2, c3, l1, l2, l3]
  · simp only [from_double3]
    rw [if_pos hcond2, c4, c5, c6, l4, l5, l6]

/-- Claim C7: for every in-range double coordinate, from_double3 bounds the
local offset: each component of the resulting local has magnitude at most
CELL_SIZE/2 up to single-precision rounding (slack 1/4096, two float ulps at
1024), because the subtraction is performed in double precision before the
down-cast to float. -/
theorem C7_local_offset_bounded (c : Double3)
    (hx : fl64 c.x = c.x) (hy : fl64 c.y = c.y) (hz : fl64 c.z = c.z)
    (hrx : inRange c.x) (hry : inRange c.y) (hrz : inRange c.z)
    (p : LargePosition) (hp : from_double3 c = some p) :
    |p.loc.x| ≤ CELL_SIZE / 2 + 1/4096 ∧
    |p.loc.y| ≤ CELL_SIZE / 2 + 1/4096 ∧
    |p.loc.z| ≤ CELL_SIZE / 2 + 1/4096 := by
  have hb : ∀ v : ℚ, fl64 v = v → inRange v → |localOf v| ≤ CELL_SIZE / 2 + 1/4096 := by
    intro v hfix hr
    obtain ⟨h1, h2, _⟩ := double_axis v hfix hr
    have htr : |localOf v| ≤ |v - (cellOf v : ℚ) * CELL_SIZE| +
        |localOf v - (v - (cellOf v : ℚ) * CELL_SIZE)| := by
      have := abs_add (v - (cellOf v : ℚ) * CELL_SIZE)
        (localOf v - (v - (cellOf v : ℚ) * CELL_SIZE))
      simpa using this
    rw [CELL_SIZE]
    norm_num
    linarith
  rw [from_double3, if_pos ⟨hrx, hry, hrz⟩] at hp
  injection hp with hp
  subst hp
  exact ⟨hb c.x hx hrx, hb c.y hy hry, hb c.z hz hrz⟩

theorem C7_local_offset_bounded_witness :
    |((⟨⟨cellOf 0, cellOf 0, cellOf 0⟩, ⟨localOf 0, localOf 0, localOf 0⟩⟩ :
      LargePosition).loc.x)| ≤ CELL_SIZE / 2 + 1/4096 :=
  (C7_local_offset_bounded ⟨0, 0, 0⟩ fl64_zero fl64_zero fl64_zero
    (inRange_of_small _ (by norm_num)) (inRange_of_small _ (by norm_num))
    (inRange_of_small _ (by norm_num)) _
    (by rw [from_double3, if_pos ⟨inRange_of_small _ (by norm_num),
      inRange_of_small _ (by norm_num), inRange_of_small _ (by norm_num)⟩])).1

/-- Claim C8: cell assignment in from_double3 rounds to the nearest cell,
with ties at exactly CELL_SIZE/2 resolved away from zero: the coordinate
1024 resolves to cell 1 (not 0) and -1024 resolves to cell -1; in general
the chosen cell center is within CELL_SIZE/2 of the coordinate. -/
theorem C8_rounding_ties_away :
    (∃ p, from_double3 ⟨1024, -1024, 0⟩ = some p ∧ p.global.x = 1 ∧ p.global.y = -1) ∧
    ∀ v : ℚ, fl64 v = v → inRange v →
      |v - (cellOf v : ℚ) * CELL_SIZE| ≤ CELL_SIZE / 2 := by
  constructor
  · have hc1 : cellOf 1024 = 1 := cellOf_eval _ (1/2) 1 (by norm_num)
      (fl64_fix_of _ 1 (-1) (by norm_num) (by norm_num))
      (roundAway_eval_pos _ 1 (by norm_num) (by norm_num) (by norm_num))
    have hc2 : cellOf (-1024) = -1 := cellOf_eval _ (-1/2) (-1) (by norm_num)
      (fl64_fix_of _ (-1) (-1) (by norm_num) (by norm_num))
      (roundAway_eval_neg _ 1 (by norm_num) (by norm_num) (by norm_num))
    have hcond : inRange (1024:ℚ) ∧ inRange (-1024:ℚ) ∧ inRange (0:ℚ) :=
      ⟨inRange_of_small _ (by norm_num), inRange_of_small _ (by norm_num),
        inRange_of_small _ (by norm_num)⟩
    refine ⟨⟨⟨1, -1, cellOf 0⟩, ⟨localOf 1024, localOf (-1024), localOf 0⟩⟩, ?_, rfl, rfl⟩
    simp only [from_double3]
    rw [if_pos hcond, hc1, hc2]
  · intro v hfix hr
    have h := (double_axis v hfix hr).1
    rw [CELL_SIZE] at h ⊢
    norm_num
    linarith

theorem C8_rounding_ties_away_witness :
    |(1024:ℚ) - (cellOf 1024 : ℚ) * CELL_SIZE| ≤ CELL_SIZE / 2 :=
  C8_rounding_ties_away.2 1024 (fl64_fix_of _ 1 10 (by norm_num) (by norm_num))
    (inRange_of_small _ (by norm_num))

/-- Claim C6: the early exit of operator== computes the per-axis cell index
difference in a widened signed 64-bit integer, so for int32 cell indices it
always equals the exact difference (no wrap-around is possible); whenever the
exact difference exceeds 3 in magnitude on any axis, equality returns false
immediately. -/
theorem C6_early_exit (a b : LargePosition)
    (hax : isInt32 a.global.x) (hay : isInt32 a.global.y) (haz : isInt32 a.global.z)
    (hbx : isInt32 b.global.x) (hby : isInt32 b.global.y) (hbz : isInt32 b.global.z)
    (hfar : 3 < |a.global.x - b.global.x| ∨ 3 < |a.global.y - b.global.y| ∨
      3 < |a.global.z - b.global.z|) :
    lpEq a b = some false := by
  have wx : wrap 64 (a.global.x - b.global.x) = a.global.x - b.global.x := by
    obtain ⟨h1, h2⟩ := hax
    obtain ⟨h3, h4⟩ := hbx
    apply wrap_id <;> · norm_num at h1 h2 h3 h4 ⊢; omega
  have wy : wrap 64 (a.global.y - b.global.y) = a.global.y - b.global.y := by
    obtain ⟨h1, h2⟩ := hay
    obtain ⟨h3, h4⟩ := hby
    apply wrap_id <;> · norm_num at h1 h2 h3 h4 ⊢; omega
  have wz : wrap 64 (a.global.z - b.global.z) = a.global.z - b.global.z := by
    obtain ⟨h1, h2⟩ := haz
    obtain ⟨h3, h4⟩ := hbz
    apply wrap_id <;> · norm_num at h1 h2 h3 h4 ⊢; omega
  simp only [lpEq]
  rw [wx, wy, wz, if_pos hfar]

theorem C6_early_exit_witness :
    lpEq ⟨⟨2^31 - 1, 0, 0⟩, ⟨0, 0, 0⟩⟩ ⟨⟨-(2^31), 0, 0⟩, ⟨0, 0, 0⟩⟩ = some false :=
  C6_early_exit ⟨⟨2^31 - 1, 0, 0⟩, ⟨0, 0, 0⟩⟩ ⟨⟨-(2^31), 0, 0⟩, ⟨0, 0, 0⟩⟩
    (by constructor <;> norm_num) (by constructor <;> norm_num)
    (by constructor <;> norm_num) (by constructor <;> norm_num)
    (by constructor <;> norm_num) (by constructor <;> norm_num)
    (by left; norm_num)

/-- Claim C9 counterexample: construct-from-cell-and-offset does have a
precondition: with offset (8192, 0, 0), whose magnitude exceeds
3 * CELL_SIZE = 6144, the assert in from_float3 fires, so the construction
does not succeed (modelled as none). -/
theorem C9_ctor_counterexample : mkFromCellOffset ⟨0, 0, 0⟩ ⟨8192, 0, 0⟩ = none := by
  rw [mkFromCellOffset, from_float3, if_neg]
  rw [CELL_SIZE]
  norm_num

theorem world_inRange (gx : ℤ) (lx : ℚ) (hg : |gx| ≤ 2^30) (hl : |lx| ≤ CELL_SIZE * 3) :
    inRange (reconOf gx lx) := by
  have herr := reconOf_err gx lx (by omega) (by rw [CELL_SIZE] at hl; linarith)
  have hgq : |(gx:ℚ)| ≤ (2:ℚ)^30 := by
    have := int_cast_abs_le gx (2^30) hg
    push_cast at this
    linarith
  have habs : |(gx:ℚ) * 2048 + lx| ≤ 2^41 + 6144 := by
    have h1 := abs_add ((gx:ℚ) * 2048) lx
    have h2 : |(gx:ℚ) * 2048| = |(gx:ℚ)| * 2048 := by
      rw [abs_mul]
      norm_num
    rw [CELL_SIZE] at hl
    nlinarith [abs_nonneg ((gx:ℚ))]
  have hrec : |reconOf gx lx| ≤ 2^41 + 6145 := by
    have htr : |reconOf gx lx| ≤ |(gx:ℚ) * 2048 + lx| +
        |reconOf gx lx - ((gx:ℚ) * 2048 + lx)| := by
      have := abs_add ((gx:ℚ) * 2048 + lx) (reconOf gx lx - ((gx:ℚ) * 2048 + lx))
      simpa using this
    linarith
  apply inRange_of_small
  calc |reconOf gx lx| ≤ 2^41 + 6145 := hrec
  _ ≤ 4398046509056 := by norm_num

/-- Claim C9 amended: the LargePosition(int3, float3) constructor is
equivalent to from_float3 on the same arguments for all inputs; construction
succeeds (no assert fires) whenever every offset component has magnitude at
most 3 * CELL_SIZE and the cell index components have magnitude at most 2^30
(so that the recomputed world coordinate stays within the supported range);
it is not assert-free for arbitrary offsets. -/
theorem C9_ctor_amended (g : Int3) (l : Float3) :
    mkFromCellOffset g l = from_float3 g l ∧
    ((|g.x| ≤ 2^30 ∧ |g.y| ≤ 2^30 ∧ |g.z| ≤ 2^30) →
     (|l.x| ≤ CELL_SIZE * 3 ∧ |l.y| ≤ CELL_SIZE * 3 ∧ |l.z| ≤ CELL_SIZE * 3) →
     ∃ p, mkFromCellOffset g l = some p) := by
  refine ⟨rfl, ?_⟩
  rintro ⟨hgx, hgy, hgz⟩ hl
  rw [mkFromCellOffset, from_float3, if_pos hl]
  by_cases hth : |l.x| ≤ THRESHOLD ∧ |l.y| ≤ THRESHOLD ∧ |l.z| ≤ THRESHOLD
  · rw [if_pos hth]
    exact ⟨_, rfl⟩
  · rw [if_neg hth, from_double3, if_pos]
    · exact ⟨_, rfl⟩
    · exact ⟨world_inRange g.x l.x hgx hl.1, world_inRange g.y l.y hgy hl.2.1,
        world_inRange g.z l.z hgz hl.2.2⟩

theorem C9_ctor_amended_witness :
    ∃ p, mkFromCellOffset ⟨0, 0, 0⟩ ⟨2000, 0, 0⟩ = some p :=
  (C9_ctor_amended ⟨0, 0, 0⟩ ⟨2000, 0, 0⟩).2
    ⟨by norm_num, by norm_num, by norm_num⟩
    ⟨by rw [CELL_SIZE]; norm_num, by rw [CELL_SIZE]; norm_num, by rw [CELL_SIZE]; norm_num⟩

theorem relOf_self_zero (l : ℚ) (hfix : fl32 l = l) : relOf l 0 = l := by
  rw [relOf, Int.cast_zero, fl32_zero, zero_mul, fl32_zero, add_zero, hfix]

theorem to_float3_same_cell (p : LargePosition)
    (hx : fl32 p.loc.x = p.loc.x) (hy : fl32 p.loc.y = p.loc.y) (hz : fl32 p.loc.z = p.loc.z)
    (hbx : |p.loc.x| ≤ CELL_SIZE * 3) (hby : |p.loc.y| ≤ CELL_SIZE * 3)
    (hbz : |p.loc.z| ≤ CELL_SIZE * 3) :
    to_float3 p p.global = some p.loc := by
  simp only [to_float3, sub_self]
  rw [if_pos (⟨⟨by norm_num, by norm_num⟩, ⟨by norm_num, by norm_num⟩,
    ⟨by norm_num, by norm_num⟩⟩ : isInt32 0 ∧ isInt32 0 ∧ isInt32 0)]
  rw [relOf_self_zero _ hx, relOf_self_zero _ hy, relOf_self_zero _ hz]
  rw [if_pos ⟨hbx, hby, hbz⟩]

theorem closeB_true (u v : ℚ) (h : |fl32 (u - v)| < tol) : closeB u v = true :=
  decide_eq_true h

theorem closeB_false (u v : ℚ) (h : ¬ |fl32 (u - v)| < tol) : closeB u v = false :=
  decide_eq_false h

theorem closeB_self (u : ℚ) (h : 0 < tol) : closeB u u = true := by
  apply closeB_true
  rw [sub_self, fl32_zero, abs_zero]
  exact h

theorem closeB_comm (u v : ℚ) : closeB u v = closeB v u := by
  rw [closeB, closeB, decide_eq_decide, show v - u = -(u - v) by ring, fl32, fl32, rnd_neg,
    abs_neg]

theorem lpEq_eval_some (a b : LargePosition) (o : Float3)
    (hno : ¬(3 < |wrap 64 (a.global.x - b.global.x)| ∨
      3 < |wrap 64 (a.global.y - b.global.y)| ∨ 3 < |wrap 64 (a.global.z - b.global.z)|))
    (ht : to_float3 b a.global = some o) :
    lpEq a b = some (closeB a.loc.x o.x && closeB a.loc.y o.y && closeB a.loc.z o.z) := by
  simp only [lpEq]
  rw [if_neg hno, ht]

theorem lpEq_eval_none (a b : LargePosition)
    (hno : ¬(3 < |wrap 64 (a.global.x - b.global.x)| ∨
      3 < |wrap 64 (a.global.y - b.global.y)| ∨ 3 < |wrap 64 (a.global.z - b.global.z)|))
    (ht : to_float3 b a.global = none) :
    lpEq a b = none := by
  simp only [lpEq]
  rw [if_neg hno, ht]

/-- Claim C10 counterexample: reflexivity of tolerant equality fails for a
position with a finite local component beyond the 3 * CELL_SIZE reprojection
bound: for p with local = (8192, 0, 0), comparing p with itself trips the
assert inside to_float3 (modelled as none), rather than returning true. -/
theorem C10_eq_refl_counterexample :
    lpEq ⟨⟨0, 0, 0⟩, ⟨8192, 0, 0⟩⟩ ⟨⟨0, 0, 0⟩, ⟨8192, 0, 0⟩⟩ = none := by
  have hr : relOf 8192 0 = 8192 := by
    rw [relOf, Int.cast_zero, fl32_zero, zero_mul, fl32_zero, add_zero]
    exact fl32_fix_of _ 8192 0 (by norm_num) (by norm_num)
  have hr0 : relOf 0 0 = 0 := relOf_self_zero 0 fl32_zero
  have ht : to_float3 ⟨⟨0, 0, 0⟩, ⟨8192, 0, 0⟩⟩ ⟨0, 0, 0⟩ = none := by
    simp only [to_float3, sub_self]
    rw [if_pos (⟨⟨by norm_num, by norm_num⟩, ⟨by norm_num, by norm_num⟩,
      ⟨by norm_num, by norm_num⟩⟩ : isInt32 0 ∧ isInt32 0 ∧ isInt32 0)]
    rw [hr, hr0]
    rw [if_neg]
    rw [CELL_SIZE]
    norm_num
  exact lpEq_eval_none _ _ (by norm_num [wrap]) ht

/-- Claim C10 amended: tolerant equality is reflexive for every position
whose local components are finite floats of magnitude at most 3 * CELL_SIZE
(the bound asserted by the reprojection): then p == p returns true, because
reprojecting p into its own cell frame returns p.local exactly and each
component differs from itself by 0, which is below the 1e-6 tolerance. -/
theorem C10_eq_refl_amended (p : LargePosition)
    (hx : fl32 p.loc.x = p.loc.x) (hy : fl32 p.loc.y = p.loc.y) (hz : fl32 p.loc.z = p.loc.z)
    (hbx : |p.loc.x| ≤ CELL_SIZE * 3) (hby : |p.loc.y| ≤ CELL_SIZE * 3)
    (hbz : |p.loc.z| ≤ CELL_SIZE * 3) :
    lpEq p p = some true := by
  have ht := to_float3_same_cell p hx hy hz hbx hby hbz
  have htolpos : 0 < tol := by linarith [tol_bounds.1]
  rw [lpEq_eval_some p p p.loc (by simp only [sub_self, wrap_zero]; norm_num) ht]
  rw [closeB_self _ htolpos, closeB_self _ htolpos, closeB_self _ htolpos]
  rfl

theorem C10_eq_refl_amended_witness :
    lpEq ⟨⟨5, 6, 7⟩, ⟨100, -200, 300⟩⟩ ⟨⟨5, 6, 7⟩, ⟨100, -200, 300⟩⟩ = some true :=
  C10_eq_refl_amended ⟨⟨5, 6, 7⟩, ⟨100, -200, 300⟩⟩
    (fl32_fix_of _ 100 0 (by norm_num) (by norm_num))
    (fl32_fix_of _ (-200) 0 (by norm_num) (by norm_num))
    (fl32_fix_of _ 300 0 (by norm_num) (by norm_num))
    (by rw [CELL_SIZE]; norm_num) (by rw [CELL_SIZE]; norm_num) (by rw [CELL_SIZE]; norm_num)

theorem fl32_tie_1024 : fl32 (16777217/16384 : ℚ) = 1024 := by
  rw [fl32, rnd_eval 24 _ 10 (by rw [abs_of_pos] <;> norm_num) (by rw [abs_of_pos] <;> norm_num)]
  norm_num
  rw [rne_eq_tie_even _ 8388608 (by norm_num) (by norm_num)]
  norm_num

theorem relOf_one_eval (l s out : ℚ) (hsum : l + 2048 = s) (hout : fl32 s = out) :
    relOf l 1 = out := by
  rw [relOf, Int.cast_one, fl32_fix_of 1 1 0 (by norm_num) (by norm_num), one_mul, CELL_SIZE,
    fl32_fix_of 2048 2048 0 (by norm_num) (by norm_num), hsum, hout]

theorem relOf_neg_one_eval (l s out : ℚ) (hsum : l - 2048 = s) (hout : fl32 s = out) :
    relOf l (-1) = out := by
  rw [relOf, CELL_SIZE, show (((-1:ℤ)):ℚ) = -1 by norm_num,
    fl32_fix_of (-1) (-1) 0 (by norm_num) (by norm_num),
    show (-1 : ℚ) * 2048 = -2048 by norm_num,
    fl32_fix_of (-2048) (-2048) 0 (by norm_num) (by norm_num),
    show l + -2048 = l - 2048 by ring, hsum, hout]

/-- Claim C5 counterexample: tolerant equality is not symmetric in result.
For a = (cell (0,0,0), local (1024,0,0)) and b = (cell (1,0,0), local
(-1024 + 2^-14, 0, 0)) (all components finite floats), a == b is true but
b == a is false: reprojecting b into the frame of a rounds 1024 + 2^-14 to
1024 exactly (a tie resolved to even), while reprojecting a into the frame
of b is exact and leaves a difference of 2^-14, far above the 1e-6
tolerance. -/
theorem C5_eq_symm_counterexample :
    lpEq ⟨⟨0, 0, 0⟩, ⟨1024, 0, 0⟩⟩ ⟨⟨1, 0, 0⟩, ⟨-16777215/16384, 0, 0⟩⟩ = some true ∧
    lpEq ⟨⟨1, 0, 0⟩, ⟨-16777215/16384, 0, 0⟩⟩ ⟨⟨0, 0, 0⟩, ⟨1024, 0, 0⟩⟩ = some false := by
  have htolpos : 0 < tol := by linarith [tol_bounds.1]
  have htolsmall : tol < 1/16384 := by linarith [tol_bounds.2]
  have hr0 : relOf 0 0 = 0 := relOf_self_zero 0 fl32_zero
  have hA : relOf (-16777215/16384) 1 = 1024 :=
    relOf_one_eval (-16777215/16384) (16777217/16384) 1024 (by norm_num) fl32_tie_1024
  have hB : relOf 1024 (-1) = -1024 := relOf_neg_one_eval 1024 (-1024) (-1024) (by norm_num)
    (fl32_fix_of _ (-1024) 0 (by norm_num) (by norm_num))
  have ht1 : to_float3 ⟨⟨1, 0, 0⟩, ⟨-16777215/16384, 0, 0⟩⟩ ⟨0, 0, 0⟩ =
      some ⟨1024, 0, 0⟩ := by
    simp only [to_float3, show (1:ℤ) - 0 = 1 by norm_num, sub_self]
    rw [if_pos (⟨⟨by norm_num, by norm_num⟩, ⟨by norm_num, by norm_num⟩,
      ⟨by norm_num, by norm_num⟩⟩ : isInt32 1 ∧ isInt32 0 ∧ isInt32 0)]
    rw [hA, hr0]
    rw [if_pos]
    rw [CELL_SIZE]
    norm_num
  have ht2 : to_float3 ⟨⟨0, 0, 0⟩, ⟨1024, 0, 0⟩⟩ ⟨1, 0, 0⟩ =
      some ⟨-1024, 0, 0⟩ := by
    simp only [to_float3, show (0:ℤ) - 1 = -1 by norm_num, sub_self]
    rw [if_pos (⟨⟨by norm_num, by norm_num⟩, ⟨by norm_num, by norm_num⟩,
      ⟨by norm_num, by norm_num⟩⟩ : isInt32 (-1) ∧ isInt32 0 ∧ isInt32 0)]
    rw [hB, hr0]
    rw [if_pos]
    rw [CELL_SIZE]
    norm_num
  have hfalse : closeB (-16777215/16384 : ℚ) (-1024) = false := by
    apply closeB_false
    rw [show (-16777215/16384 : ℚ) - -1024 = 1/16384 by norm_num,
      fl32_fix_of (1/16384) 1 (-14) (by norm_num) (by norm_num),
      abs_of_pos (by norm_num : (0:ℚ) < 1/16384)]
    linarith
  constructor
  · rw [lpEq_eval_some _ _ ⟨1024, 0, 0⟩ (by norm_num [wrap]) ht1]
    show some (closeB 1024 1024 && closeB 0 0 && closeB 0 0) = some true
    rw [closeB_self _ htolpos, closeB_self _ htolpos]
    rfl
  · rw [lpEq_eval_some _ _ ⟨-1024, 0, 0⟩ (by norm_num [wrap]) ht2]
    show some (closeB (-16777215/16384) (-1024) && closeB 0 0 && closeB 0 0) = some false
    rw [hfalse]
    rfl

/-- Claim C5 amended: tolerant equality is symmetric whenever the two
positions carry the same cell index (finite local components within the
3 * CELL_SIZE reprojection bound): a == b iff b == a, because the
reprojection is then exact and float negation is exact.  For positions in
different cells the rounding of the one-sided reprojection can break
symmetry near the tolerance boundary, as the counterexample shows. -/
theorem C5_eq_symm_amended (a b : LargePosition) (hg : a.global = b.global)
    (hax : fl32 a.loc.x = a.loc.x) (hay : fl32 a.loc.y = a.loc.y)
    (haz : fl32 a.loc.z = a.loc.z)
    (hbx : fl32 b.loc.x = b.loc.x) (hby : fl32 b.loc.y = b.loc.y)
    (hbz : fl32 b.loc.z = b.loc.z)
    (hba1 : |a.loc.x| ≤ CELL_SIZE * 3) (hba2 : |a.loc.y| ≤ CELL_SIZE * 3)
    (hba3 : |a.loc.z| ≤ CELL_SIZE * 3)
    (hbb1 : |b.loc.x| ≤ CELL_SIZE * 3) (hbb2 : |b.loc.y| ≤ CELL_SIZE * 3)
    (hbb3 : |b.loc.z| ≤ CELL_SIZE * 3) :
    lpEq a b = lpEq b a := by
  have ht1 : to_float3 b a.global = some b.loc := by
    rw [hg]
    exact to_float3_same_cell b hbx hby hbz hbb1 hbb2 hbb3
  have ht2 : to_float3 a b.global = some a.loc := by
    rw [← hg]
    exact to_float3_same_cell a hax hay haz hba1 hba2 hba3
  have hno1 : ¬(3 < |wrap 64 (a.global.x - b.global.x)| ∨
      3 < |wrap 64 (a.global.y - b.global.y)| ∨ 3 < |wrap 64 (a.global.z - b.global.z)|) := by
    rw [hg]
    simp only [sub_self, wrap_zero]
    norm_num
  have hno2 : ¬(3 < |wrap 64 (b.global.x - a.global.x)| ∨
      3 < |wrap 64 (b.global.y - a.global.y)| ∨ 3 < |wrap 64 (b.global.z - a.global.z)|) := by
    rw [hg]
    simp only [sub_self, wrap_zero]
    norm_num
  rw [lpEq_eval_some a b b.loc hno1 ht1, lpEq_eval_some b a a.loc hno2 ht2,
    closeB_comm a.loc.x b.loc.x, closeB_comm a.loc.y b.loc.y, closeB_comm a.loc.z b.loc.z]

theorem C5_eq_symm_amended_witness :
    lpEq ⟨⟨2, 3, 4⟩, ⟨10, 20, 30⟩⟩ ⟨⟨2, 3, 4⟩, ⟨10, 20, 31⟩⟩ =
    lpEq ⟨⟨2, 3, 4⟩, ⟨10, 20, 31⟩⟩ ⟨⟨2, 3, 4⟩, ⟨10, 20, 30⟩⟩ :=
  C5_eq_symm_amended ⟨⟨2, 3, 4⟩, ⟨10, 20, 30⟩⟩ ⟨⟨2, 3, 4⟩, ⟨10, 20, 31⟩⟩ rfl
    (fl32_fix_of _ 10 0 (by norm_num) (by norm_num))
    (fl32_fix_of _ 20 0 (by norm_num) (by norm_num))
    (fl32_fix_of _ 30 0 (by norm_num) (by norm_num))
    (fl32_fix_of _ 10 0 (by norm_num) (by norm_num))
    (fl32_fix_of _ 20 0 (by norm_num) (by norm_num))
    (fl32_fix_of _ 31 0 (by norm_num) (by norm_num))
    (by rw [CELL_SIZE]; norm_num) (by rw [CELL_SIZE]; norm_num) (by rw [CELL_SIZE]; norm_num)
    (by rw [CELL_SIZE]; norm_num) (by rw [CELL_SIZE]; norm_num) (by rw [CELL_SIZE]; norm_num)

theorem relOf_small (l : ℚ) (d : ℤ) (hd : |d| ≤ 3) :
    relOf l d = fl32 (l + (d:ℚ) * 2048) := by
  have hd24 : |d| ≤ 2 ^ 24 := le_trans hd (by norm_num)
  have hd2048 : |d * 2048| ≤ 2 ^ 24 := by
    have h1 : |d * 2048| = |d| * 2048 := by
      rw [abs_mul]
      norm_num
    rw [h1]
    nlinarith [abs_nonneg d]
  have h1 : fl32 ((d:ℚ)) = (d:ℚ) := by rw [fl32, rnd_int 24 d (by norm_num) hd24]
  have h2 : fl32 ((d:ℚ) * 2048) = (d:ℚ) * 2048 := by
    rw [show (d:ℚ) * 2048 = ((d * 2048 : ℤ):ℚ) by push_cast; ring, fl32,
      rnd_int 24 _ (by norm_num) hd2048]
  rw [relOf, CELL_SIZE, h1, h2]

theorem rel_common (g rX : ℤ) (pl fx : ℚ) (hd : |g - rX| ≤ 2) (hg : |g| ≤ 2^31)
    (hfx : fx = relOf pl (g - rX)) (hb : |fx| ≤ CELL_SIZE * 3) :
    |fx - (pl + ((g - rX : ℤ):ℚ) * 2048)| ≤ 367/1000000 ∧ |pl| ≤ 10241 ∧
    |reconOf g pl - ((g:ℚ) * 2048 + pl)| ≤ 489/1000000 := by
  have hb6 : |fx| ≤ 6144 := by rw [CELL_SIZE] at hb; linarith
  rw [relOf_small pl (g - rX) (by omega)] at hfx
  set X : ℚ := pl + ((g - rX : ℤ):ℚ) * 2048 with hX
  have hXb : |X| ≤ 6145 := by
    have h := abs_le_of_rnd 24 X 6144 (by rw [← fl32]; rw [← hfx]; exact hb6)
    norm_num at h
    linarith
  have herr : |fl32 X - X| ≤ 6145/2^24 := fl32_err_of X 6145 hXb
  have conj1 : |fx - X| ≤ 367/1000000 := by
    rw [hfx]
    calc |fl32 X - X| ≤ 6145/2^24 := herr
    _ ≤ 367/1000000 := by norm_num
  have hdq : |((g - rX : ℤ):ℚ)| ≤ 2 := by
    have := int_cast_abs_le (g - rX) 2 hd
    push_cast at this ⊢
    linarith
  have conj2 : |pl| ≤ 10241 := by
    have htr : |pl| ≤ |X| + |((g - rX : ℤ):ℚ) * 2048| := by
      have h := abs_add X (-(((g - rX : ℤ):ℚ) * 2048))
      have h2 : X + -(((g - rX : ℤ):ℚ) * 2048) = pl := by rw [hX]; ring
      rw [h2, abs_neg] at h
      exact h
    have hm : |((g - rX : ℤ):ℚ) * 2048| = |((g - rX : ℤ):ℚ)| * 2048 := by
      rw [abs_mul]
      norm_num
    nlinarith [abs_nonneg (((g - rX : ℤ):ℚ))]
  exact ⟨conj1, conj2, reconOf_err g pl (by omega) (by linarith)⟩

theorem C2_then_axis (g rX : ℤ) (pl fx : ℚ) (hd : |g - rX| ≤ 2) (hg : |g| ≤ 2^31)
    (hfx : fx = relOf pl (g - rX)) (hb : |fx| ≤ CELL_SIZE * 3) :
    |reconOf g pl - reconOf rX fx| ≤ 1/500 := by
  obtain ⟨h1, h2, h3⟩ := rel_common g rX pl fx hd hg hfx hb
  have h4 : |reconOf rX fx - ((rX:ℚ) * 2048 + fx)| ≤ 489/1000000 :=
    reconOf_err rX fx (by rw [abs_le] at hd hg ⊢; omega) (by rw [CELL_SIZE] at hb; linarith)
  have hw : ((g:ℚ) * 2048 + pl) - ((rX:ℚ) * 2048 + fx) =
      (pl + ((g - rX : ℤ):ℚ) * 2048) - fx := by
    push_cast
    ring
  have htr : |reconOf g pl - reconOf rX fx| ≤
      |reconOf g pl - ((g:ℚ) * 2048 + pl)| +
      |((g:ℚ) * 2048 + pl) - ((rX:ℚ) * 2048 + fx)| +
      |((rX:ℚ) * 2048 + fx) - reconOf rX fx| := by
    have t1 := abs_add (reconOf g pl - ((g:ℚ) * 2048 + pl))
      (((g:ℚ) * 2048 + pl) - ((rX:ℚ) * 2048 + fx))
    have t2 := abs_add (reconOf g pl - ((rX:ℚ) * 2048 + fx))
      (((rX:ℚ) * 2048 + fx) - reconOf rX fx)
    have e1 : reconOf g pl - ((g:ℚ) * 2048 + pl) +
        (((g:ℚ) * 2048 + pl) - ((rX:ℚ) * 2048 + fx)) =
        reconOf g pl - ((rX:ℚ) * 2048 + fx) := by ring
    have e2 : reconOf g pl - ((rX:ℚ) * 2048 + fx) +
        (((rX:ℚ) * 2048 + fx) - reconOf rX fx) =
        reconOf g pl - reconOf rX fx := by ring
    rw [e1] at t1
    rw [e2] at t2
    linarith
  have hmid : |((g:ℚ) * 2048 + pl) - ((rX:ℚ) * 2048 + fx)| ≤ 367/1000000 := by
    rw [hw]
    rw [abs_sub_comm] at h1
    exact h1
  have hlast : |((rX:ℚ) * 2048 + fx) - reconOf rX fx| ≤ 489/1000000 := by
    rw [abs_sub_comm]
    exact h4
  linarith

theorem C2_else_axis (g rX : ℤ) (pl fx : ℚ) (hd : |g - rX| ≤ 2) (hg : |g| ≤ 2^31)
    (hfx : fx = relOf pl (g - rX)) (hb : |fx| ≤ CELL_SIZE * 3)
    (hwr : inRange (reconOf rX fx)) :
    |reconOf g pl -
      reconOf (cellOf (reconOf rX fx)) (localOf (reconOf rX fx))| ≤ 1/500 := by
  obtain ⟨h1, h2, h3⟩ := rel_common g rX pl fx hd hg hfx hb
  have h4 : |reconOf rX fx - ((rX:ℚ) * 2048 + fx)| ≤ 489/1000000 :=
    reconOf_err rX fx (by rw [abs_le] at hd hg ⊢; omega) (by rw [CELL_SIZE] at hb; linarith)
  set w : ℚ := reconOf rX fx with hwdef
  obtain ⟨m, k, hm, hform⟩ := rnd_form 53 (fl64 ((rX:ℚ) * CELL_SIZE) + fx)
  have hv : w = (m:ℚ) * 2 ^ k := by
    rw [hwdef, reconOf, fl64, hform]
  have hwabs : |w| ≤ 2 ^ 42 := inRange_abs w hwr
  have hchain := (dchain w m k hm hv hwabs).2.2
  have hw : ((g:ℚ) * 2048 + pl) - ((rX:ℚ) * 2048 + fx) =
      (pl + ((g - rX : ℤ):ℚ) * 2048) - fx := by
    push_cast
    ring
  have htr : |reconOf g pl - reconOf (cellOf w) (localOf w)| ≤
      |reconOf g pl - ((g:ℚ) * 2048 + pl)| +
      |((g:ℚ) * 2048 + pl) - ((rX:ℚ) * 2048 + fx)| +
      |((rX:ℚ) * 2048 + fx) - w| +
      |w - reconOf (cellOf w) (localOf w)| := by
    have t1 := abs_add (reconOf g pl - ((g:ℚ) * 2048 + pl))
      (((g:ℚ) * 2048 + pl) - ((rX:ℚ) * 2048 + fx))
    have e1 : reconOf g pl - ((g:ℚ) * 2048 + pl) +
        (((g:ℚ) * 2048 + pl) - ((rX:ℚ) * 2048 + fx)) =
        reconOf g pl - ((rX:ℚ) * 2048 + fx) := by ring
    rw [e1] at t1
    have t2 := abs_add (reconOf g pl - ((rX:ℚ) * 2048 + fx)) (((rX:ℚ) * 2048 + fx) - w)
    have e2 : reconOf g pl - ((rX:ℚ) * 2048 + fx) + (((rX:ℚ) * 2048 + fx) - w) =
        reconOf g pl - w := by ring
    rw [e2] at t2
    have t3 := abs_add (reconOf g pl - w) (w - reconOf (cellOf w) (localOf w))
    have e3 : reconOf g pl - w + (w - reconOf (cellOf w) (localOf w)) =
        reconOf g pl - reconOf (cellOf w) (localOf w) := by ring
    rw [e3] at t3
    linarith
  have hmid : |((g:ℚ) * 2048 + pl) - ((rX:ℚ) * 2048 + fx)| ≤ 367/1000000 := by
    rw [hw]
    rw [abs_sub_comm] at h1
    exact h1
  have hlast : |((rX:ℚ) * 2048 + fx) - w| ≤ 489/1000000 := by
    rw [abs_sub_comm]
    exact h4
  have hch : |w - reconOf (cellOf w) (localOf w)| ≤ 551/1000000 := by
    rw [abs_sub_comm]
    exact hchain
  linarith

/-- Claim C2 amended: for every position p with int32 cell indices and every
reference cell r within 2 cells of p.global per axis, if both conversions
pass their bounds checks (to_float3 p r = some f and from_float3 r f =
some q), then q denotes the same world location as p within 2e-3 = 1/500
per axis.  The originally claimed MIN_PRECISION = 0.000488f tolerance can be
exceeded by one binary64 ulp at extreme magnitudes (the counterexample
reaches exactly 2^-11 > MIN_PRECISION), so the bound is relaxed to 1/500. -/
theorem C2_relative_roundtrip_amended (p : LargePosition) (r : Int3) (f : Float3)
    (q : LargePosition)
    (hgx : isInt32 p.global.x) (hgy : isInt32 p.global.y) (hgz : isInt32 p.global.z)
    (hdx : |p.global.x - r.x| ≤ 2) (hdy : |p.global.y - r.y| ≤ 2)
    (hdz : |p.global.z - r.z| ≤ 2)
    (hf : to_float3 p r = some f) (hq : from_float3 r f = some q) :
    |(to_double3 q).x - (to_double3 p).x| ≤ 1/500 ∧
    |(to_double3 q).y - (to_double3 p).y| ≤ 1/500 ∧
    |(to_double3 q).z - (to_double3 p).z| ≤ 1/500 := by
  have hgx31 : |p.global.x| ≤ 2^31 := by
    obtain ⟨h1, h2⟩ := hgx
    rw [abs_le]
    omega
  have hgy31 : |p.global.y| ≤ 2^31 := by
    obtain ⟨h1, h2⟩ := hgy
    rw [abs_le]
    omega
  have hgz31 : |p.global.z| ≤ 2^31 := by
    obtain ⟨h1, h2⟩ := hgz
    rw [abs_le]
    omega
  have hi : isInt32 (p.global.x - r.x) ∧ isInt32 (p.global.y - r.y) ∧
      isInt32 (p.global.z - r.z) := by
    rw [abs_le] at hdx hdy hdz
    refine ⟨⟨?_, ?_⟩, ⟨?_, ?_⟩, ⟨?_, ?_⟩⟩ <;> · norm_num; omega
  simp only [to_float3] at hf
  rw [if_pos hi] at hf
  split_ifs at hf with hfb
  · obtain ⟨hfb1, hfb2, hfb3⟩ := hfb
    injection hf with hf
    subst hf
    rw [from_float3] at hq
    split_ifs at hq with hq1 hq2
    · -- hysteresis branch: q = (r, f)
      injection hq with hq
      subst hq
      simp only [to_double3]
      refine ⟨?_, ?_, ?_⟩ <;> rw [abs_sub_comm]
      · exact C2_then_axis p.global.x r.x p.loc.x _ hdx hgx31 rfl hfb1
      · exact C2_then_axis p.global.y r.y p.loc.y _ hdy hgy31 rfl hfb2
      · exact C2_then_axis p.global.z r.z p.loc.z _ hdz hgz31 rfl hfb3
    · -- rebuild branch through from_double3
      rw [from_double3] at hq
      split_ifs at hq with hq3
      · obtain ⟨hin1, hin2, hin3⟩ := hq3
        injection hq with hq
        subst hq
        simp only [to_double3]
        refine ⟨?_, ?_, ?_⟩ <;> rw [abs_sub_comm]
        · exact C2_else_axis p.global.x r.x p.loc.x _ hdx hgx31 rfl hfb1 hin1
        · exact C2_else_axis p.global.y r.y p.loc.y _ hdy hgy31 rfl hfb2 hin2
        · exact C2_else_axis p.global.z r.z p.loc.z _ hdz hgz31 rfl hfb3 hin3

theorem reconOf_zero : reconOf 0 0 = 0 := by
  rw [reconOf, Int.cast_zero, zero_mul, fl64_zero, zero_add, fl64_zero]

theorem cellOf_zero : cellOf 0 = 0 := by
  rw [cellOf, zero_div, fl64_zero]
  exact roundAway_eval_pos 0 0 (by norm_num) (by norm_num) (by norm_num)

theorem localOf_zero : localOf 0 = 0 :=
  localOf_eval 0 0 0 cellOf_zero (by norm_num) (by norm_num) fl64_zero fl32_zero

theorem relOf_one_fl (l out : ℚ) (h : fl32 (l + 2048) = out) : relOf l 1 = out := by
  rw [relOf, Int.cast_one, fl32_fix_of 1 1 0 (by norm_num) (by norm_num), one_mul, CELL_SIZE,
    fl32_fix_of 2048 2048 0 (by norm_num) (by norm_num), h]

/-- Claim C2 counterexample: the relative-frame round trip can exceed
MIN_PRECISION.  Take p with cell (2^30 + 1, 0, 0), local
(-348 + 23/32768, 0, 0) (a finite float of magnitude below THRESHOLD) and
the reference cell r = (2^30, 0, 0) (one cell away).  Both conversions pass
their bounds checks, yet the reconstructed world x coordinate differs from
that of p by exactly 2^-11 = 0.00048828125 > MIN_PRECISION = 0.000488f:
the to_double3 additions round in opposite directions at magnitude 2^41. -/
theorem C2_relative_roundtrip_counterexample :
    to_float3 ⟨⟨1073741825, 0, 0⟩, ⟨-11403241/32768, 0, 0⟩⟩ ⟨1073741824, 0, 0⟩ =
      some ⟨6963203/4096, 0, 0⟩ ∧
    from_float3 ⟨1073741824, 0, 0⟩ ⟨6963203/4096, 0, 0⟩ =
      some ⟨⟨1073741825, 0, 0⟩, ⟨-356351/1024, 0, 0⟩⟩ ∧
    MIN_PRECISION <
      |(to_double3 ⟨⟨1073741825, 0, 0⟩, ⟨-356351/1024, 0, 0⟩⟩).x -
       (to_double3 ⟨⟨1073741825, 0, 0⟩, ⟨-11403241/32768, 0, 0⟩⟩).x| := by
  have hfA : fl32 (-11403241/32768 + 2048) = 6963203/4096 := by
    rw [show (-11403241/32768 : ℚ) + 2048 = 55705623/32768 by norm_num]
    rw [fl32, rnd_eval 24 _ 10 (by rw [abs_of_pos] <;> norm_num)
      (by rw [abs_of_pos] <;> norm_num)]
    norm_num
    rw [rne_eq_of_gt _ 13926405 (by norm_num) (by norm_num)]
    norm_num
  have step1 : fl64 (((1073741824:ℤ):ℚ) * CELL_SIZE) = 2199023255552 := by
    rw [CELL_SIZE, show (((1073741824:ℤ)):ℚ) * 2048 = 2199023255552 by norm_num]
    exact fl64_fix_of _ 2199023255552 0 (by norm_num) (by norm_num)
  have step2 : fl64 ((2199023255552:ℚ) + 6963203/4096) = 2251799815426049/1024 := by
    rw [show (2199023255552:ℚ) + 6963203/4096 = 9007199261704195/4096 by norm_num]
    rw [fl64, rnd_eval 53 _ 41 (by rw [abs_of_pos] <;> norm_num)
      (by rw [abs_of_pos] <;> norm_num)]
    norm_num
    rw [rne_eq_tie_odd _ 4503599630852097 (by norm_num) (by norm_num)]
    norm_num
  have hrecw : reconOf 1073741824 (6963203/4096) = 2251799815426049/1024 := by
    rw [reconOf, step1, step2]
  have hcell : cellOf (2251799815426049/1024) = 1073741825 :=
    cellOf_eval _ (2251799815426049/2097152) 1073741825 (by norm_num)
      (fl64_fix_of _ 2251799815426049 (-21) (by norm_num) (by norm_num))
      (roundAway_eval_pos _ 1073741825 (by norm_num) (by norm_num) (by norm_num))
  have hlocw : localOf (2251799815426049/1024) = -356351/1024 :=
    localOf_eval _ (-356351/1024) 1073741825 hcell (by norm_num) (by norm_num)
      (fl64_fix_of _ (-356351) (-10) (by norm_num) (by norm_num))
      (fl32_fix_of _ (-356351) (-10) (by norm_num) (by norm_num))
  have hA : reconOf 1073741825 (-11403241/32768) = 4503599630852097/2048 := by
    rw [reconOf, CELL_SIZE, show (((1073741825:ℤ)):ℚ) * 2048 = 2199023257600 by norm_num]
    rw [fl64_fix_of (2199023257600:ℚ) 2199023257600 0 (by norm_num) (by norm_num)]
    rw [show (2199023257600:ℚ) + -11403241/32768 = 72057594093633559/32768 by norm_num]
    rw [fl64, rnd_eval 53 _ 41 (by rw [abs_of_pos] <;> norm_num)
      (by rw [abs_of_pos] <;> norm_num)]
    norm_num
    rw [rne_eq_of_lt _ 4503599630852097 (by norm_num) (by norm_num)]
    norm_num
  have hB : reconOf 1073741825 (-356351/1024) = 2251799815426049/1024 := by
    rw [reconOf, CELL_SIZE, show (((1073741825:ℤ)):ℚ) * 2048 = 2199023257600 by norm_num]
    rw [fl64_fix_of (2199023257600:ℚ) 2199023257600 0 (by norm_num) (by norm_num)]
    rw [show (2199023257600:ℚ) + -356351/1024 = 2251799815426049/1024 by norm_num]
    exact fl64_fix_of _ 2251799815426049 (-10) (by norm_num) (by norm_num)
  refine ⟨?_, ?_, ?_⟩
  · simp only [to_float3, show (1073741825:ℤ) - 1073741824 = 1 by norm_num, sub_self]
    rw [if_pos (⟨⟨by norm_num, by norm_num⟩, ⟨by norm_num, by norm_num⟩,
      ⟨by norm_num, by norm_num⟩⟩ : isInt32 1 ∧ isInt32 0 ∧ isInt32 0)]
    rw [relOf_one_fl _ _ hfA, relOf_self_zero 0 fl32_zero]
    rw [if_pos]
    rw [CELL_SIZE]
    norm_num [abs_le]
  · simp only [from_float3]
    rw [if_pos (⟨by rw [CELL_SIZE]; norm_num [abs_le], by rw [CELL_SIZE]; norm_num,
      by rw [CELL_SIZE]; norm_num⟩ : |(6963203/4096:ℚ)| ≤ CELL_SIZE * 3 ∧
      |(0:ℚ)| ≤ CELL_SIZE * 3 ∧ |(0:ℚ)| ≤ CELL_SIZE * 3)]
    rw [if_neg (by rw [THRESHOLD]; norm_num [abs_le])]
    rw [hrecw, reconOf_zero]
    simp only [from_double3]
    rw [if_pos (⟨inRange_of_small _ (by norm_num [abs_le]), inRange_of_small _ (by norm_num),
      inRange_of_small _ (by norm_num)⟩ : inRange ((2251799815426049:ℚ)/1024) ∧
      inRange (0:ℚ) ∧ inRange (0:ℚ))]
    rw [hcell, hlocw, cellOf_zero, localOf_zero]
  · simp only [to_double3]
    rw [hA, hB]
    rw [show |(2251799815426049:ℚ)/1024 - 4503599630852097/2048| = 1/2048 by
      rw [abs_of_pos] <;> norm_num]
    linarith [minprec_bounds.2]

theorem C2_relative_roundtrip_amended_witness :
    |(to_double3 ⟨⟨1, 0, 0⟩, ⟨100, 0, 0⟩⟩).x - (to_double3 ⟨⟨1, 0, 0⟩, ⟨100, 0, 0⟩⟩).x| ≤ 1/500 ∧
    |(to_double3 ⟨⟨1, 0, 0⟩, ⟨100, 0, 0⟩⟩).y - (to_double3 ⟨⟨1, 0, 0⟩, ⟨100, 0, 0⟩⟩).y| ≤ 1/500 ∧
    |(to_double3 ⟨⟨1, 0, 0⟩, ⟨100, 0, 0⟩⟩).z - (to_double3 ⟨⟨1, 0, 0⟩, ⟨100, 0, 0⟩⟩).z| ≤ 1/500 :=
  C2_relative_roundtrip_amended ⟨⟨1, 0, 0⟩, ⟨100, 0, 0⟩⟩ ⟨1, 0, 0⟩ ⟨100, 0, 0⟩
    ⟨⟨1, 0, 0⟩, ⟨100, 0, 0⟩⟩
    (by constructor <;> norm_num) (by constructor <;> norm_num)
    (by constructor <;> norm_num)
    (by norm_num) (by norm_num) (by norm_num)
    (to_float3_same_cell ⟨⟨1, 0, 0⟩, ⟨100, 0, 0⟩⟩
      (fl32_fix_of _ 100 0 (by norm_num) (by norm_num)) fl32_zero fl32_zero
      (by rw [CELL_SIZE]; norm_num) (by rw [CELL_SIZE]; norm_num)
      (by rw [CELL_SIZE]; norm_num))
    (by
      simp only [from_float3]
      rw [if_pos (⟨by rw [CELL_SIZE]; norm_num, by rw [CELL_SIZE]; norm_num,
        by rw [CELL_SIZE]; norm_num⟩ : |(100:ℚ)| ≤ CELL_SIZE * 3 ∧
        |(0:ℚ)| ≤ CELL_SIZE * 3 ∧ |(0:ℚ)| ≤ CELL_SIZE * 3)]
      rw [if_pos (⟨by rw [THRESHOLD]; norm_num, by rw [THRESHOLD]; norm_num,
        by rw [THRESHOLD]; norm_num⟩ : |(100:ℚ)| ≤ THRESHOLD ∧
        |(0:ℚ)| ≤ THRESHOLD ∧ |(0:ℚ)| ≤ THRESHOLD)])
